import Mathlib

/-!
Verification of the to-do list Task Store (`src/app/index.tsx`).

This file gives a shallow embedding of the state logic of the single-screen
to-do application and proves the specified properties of its operations.

* `Todo` mirrors the `Todo` record type (`id`, `text`, `completed`).
* `handleSave`, `handleDelete`, `handleToggle` mirror the mutating handlers.
  `handleSave` receives the `editingId` state (`Option String` for
  `string | null`), the freshly generated id (the result of `uuid()`), and the
  raw `input` state.  The JavaScript truthiness test `if (editingId)` is
  modelled exactly: the branch is taken only when `editingId` is non-null
  *and* non-empty.
* `jsTrim` models JavaScript `String.prototype.trim` (ECMAScript whitespace).
* `stringifyTodos` / `deserializeTodos` model the persistence codec
  (`JSON.stringify` of a `Todo[]`, and `JSON.parse` followed by use of the
  result as a `Todo[]`; a parse that does not yield a well-shaped array is
  folded into the failure case).
* `loadTodos` models `loadTodos` (absent / falsy / unparseable blob falls
  back to the empty list), and `setItem`/`persistTodos` model the
  write-back effect `AsyncStorage.setItem(STORAGE_KEY, JSON.stringify(todos))`.
-/

/-- The `Todo` record from `src/app/index.tsx`. -/
structure Todo where
  id : String
  text : String
  completed : Bool
deriving DecidableEq, Repr

/-- The constant `STORAGE_KEY`: `const STORAGE_KEY = "BLINK_TODO_LIST_V1"`. -/
def STORAGE_KEY : String := "BLINK_TODO_LIST_V1"

/-- Whitespace recognized by JavaScript `String.prototype.trim`
(ECMAScript `WhiteSpace` and `LineTerminator` code points). -/
def isJsWs (c : Char) : Bool :=
  c.toNat = 0x9 || c.toNat = 0xA || c.toNat = 0xB || c.toNat = 0xC || c.toNat = 0xD ||
  c.toNat = 0x20 || c.toNat = 0xA0 || c.toNat = 0x1680 ||
  (0x2000 ≤ c.toNat && c.toNat ≤ 0x200A) ||
  c.toNat = 0x2028 || c.toNat = 0x2029 || c.toNat = 0x202F ||
  c.toNat = 0x205F || c.toNat = 0x3000 || c.toNat = 0xFEFF

/-- Model of JavaScript `s.trim()`: strip leading and trailing whitespace. -/
def jsTrim (s : String) : String :=
  ⟨((s.data.dropWhile isJsWs).reverse.dropWhile isJsWs).reverse⟩

/--
The handler `handleSave` from `src/app/index.tsx`:

```js
const handleSave = () => {
  if (input.trim() === "") return;
  if (editingId) {
    setTodos((prev) => prev.map((t) =>
      t.id === editingId ? { ...t, text: input.trim() } : t));
  } else {
    setTodos((prev) => [
      { id: uuid(), text: input.trim(), completed: false }, ...prev]);
  }
  ...
}
```

`editingId : Option String` stands for the `string | null` state, and
`freshId` stands for the value `uuid()` produces in the create branch.
`if (editingId)` is false for `null` and for the empty string, so
`some ""` falls through to the create branch exactly as in JavaScript.
-/
def handleSave (editingId : Option String) (freshId input : String)
    (todos : List Todo) : List Todo :=
  if jsTrim input = "" then todos
  else
    match editingId with
    | some eid =>
      if eid = "" then
        { id := freshId, text := jsTrim input, completed := false } :: todos
      else
        todos.map fun t => if t.id = eid then { t with text := jsTrim input } else t
    | none => { id := freshId, text := jsTrim input, completed := false } :: todos

/-- The handler `handleDelete`: `setTodos((prev) => prev.filter((t) => t.id !== id))`. -/
def handleDelete (id : String) (todos : List Todo) : List Todo :=
  todos.filter fun t => t.id != id

/-- The handler `handleToggle`:
`setTodos((prev) => prev.map((t) => t.id === id ? { ...t, completed: !t.completed } : t))`. -/
def handleToggle (id : String) (todos : List Todo) : List Todo :=
  todos.map fun t => if t.id = id then { t with completed := !t.completed } else t

/-! The persistence codec.

The stored blob is `JSON.stringify(todos)` and is read back with
`JSON.parse`.  Both are modelled here: a `Json` value type, a renderer
producing exactly `JSON.stringify`'s output for an array of
`{id, text, completed}` records, and a JSON parser.
-/

/-- A JSON value (numbers restricted to integers; the stored blobs of this
application contain only strings, booleans, arrays and objects). -/
inductive Json where
  | null
  | bool (b : Bool)
  | num (n : Int)
  | str (s : String)
  | arr (elems : List Json)
  | obj (fields : List (String × Json))
deriving Repr

/-- JSON insignificant whitespace, by code point (space, tab, LF, CR). -/
def isJsonWs (c : Char) : Bool :=
  c.toNat = 32 || c.toNat = 9 || c.toNat = 10 || c.toNat = 13

/-- Drop leading JSON whitespace. -/
def skipWs : List Char → List Char
  | [] => []
  | c :: cs => if isJsonWs c then skipWs cs else c :: cs

/-- The value of a hexadecimal digit character, by code point range. -/
def hexVal (c : Char) : Option Nat :=
  let n := c.toNat
  if 48 ≤ n ∧ n ≤ 57 then some (n - 48)
  else if 97 ≤ n ∧ n ≤ 102 then some (n - 87)
  else if 65 ≤ n ∧ n ≤ 70 then some (n - 55)
  else none

/-- Prepend a character to the first component of a parse result. -/
def consFst (c : Char) : List Char × List Char → List Char × List Char :=
  fun p => (c :: p.1, p.2)

/-- Parse the body of a JSON string after the opening quote, decoding
escape sequences; returns the decoded characters and the input after the
closing quote. -/
def parseStringBody : List Char → Option (List Char × List Char)
  | [] => none
  | c :: cs =>
    if c = '"' then some ([], cs)
    else if c = '\\' then
      match cs with
      | [] => none
      | e :: cs2 =>
        if e = 'u' then
          match cs2 with
          | h1 :: h2 :: h3 :: h4 :: cs3 =>
            match hexVal h1, hexVal h2, hexVal h3, hexVal h4 with
            | some a, some b, some c, some d =>
              (parseStringBody cs3).map (consFst (Char.ofNat (((a * 16 + b) * 16 + c) * 16 + d)))
            | _, _, _, _ => none
          | _ => none
        else if e = '"' then (parseStringBody cs2).map (consFst '"')
        else if e = '\\' then (parseStringBody cs2).map (consFst '\\')
        else if e = '/' then (parseStringBody cs2).map (consFst '/')
        else if e = 'b' then (parseStringBody cs2).map (consFst '\x08')
        else if e = 't' then (parseStringBody cs2).map (consFst '\t')
        else if e = 'n' then (parseStringBody cs2).map (consFst '\n')
        else if e = 'f' then (parseStringBody cs2).map (consFst '\x0c')
        else if e = 'r' then (parseStringBody cs2).map (consFst '\r')
        else none
    else if c.toNat < 32 then none
    else (parseStringBody cs).map (consFst c)

/-- Split a leading run of decimal digits from the input. -/
def takeDigits : List Char → List Char × List Char
  | [] => ([], [])
  | c :: cs =>
    if c.isDigit then
      let p := takeDigits cs
      (c :: p.1, p.2)
    else ([], c :: cs)

/-- Numeric value of a digit run. -/
def digitsVal (ds : List Char) : Nat :=
  ds.foldl (fun acc c => acc * 10 + (c.toNat - '0'.toNat)) 0

/-- Parse a nonempty run of decimal digits. -/
def parseNat (cs : List Char) : Option (Nat × List Char) :=
  match takeDigits cs with
  | ([], _) => none
  | (ds, rest) => some (digitsVal ds, rest)

/-- Consume an expected literal suffix of a keyword (`true`/`false`/`null`). -/
def dropLit : List Char → List Char → Option (List Char)
  | [], input => some input
  | _ :: _, [] => none
  | p :: ps, c :: cs => if c = p then dropLit ps cs else none

mutual

/-- Parse one JSON value.  `fuel` decreases on every recursive call; the
top-level entry point supplies `input.length + 1`, which is always enough. -/
def parseValue : Nat → List Char → Option (Json × List Char)
  | 0, _ => none
  | f + 1, input =>
    match skipWs input with
    | [] => none
    | c :: cs =>
      if c = '"' then (parseStringBody cs).map (fun p => (Json.str ⟨p.1⟩, p.2))
      else if c = '[' then
        match skipWs cs with
        | [] => none
        | d :: ds =>
          if d = ']' then some (Json.arr [], ds)
          else (parseElems f (d :: ds)).map (fun p => (Json.arr p.1, p.2))
      else if c = '{' then
        match skipWs cs with
        | [] => none
        | d :: ds =>
          if d = '}' then some (Json.obj [], ds)
          else (parseFields f (d :: ds)).map (fun p => (Json.obj p.1, p.2))
      else if c = 't' then (dropLit ['r', 'u', 'e'] cs).map (fun r => (Json.bool true, r))
      else if c = 'f' then (dropLit ['a', 'l', 's', 'e'] cs).map (fun r => (Json.bool false, r))
      else if c = 'n' then (dropLit ['u', 'l', 'l'] cs).map (fun r => (Json.null, r))
      else if c = '-' then (parseNat cs).map (fun p => (Json.num (-(p.1 : Int)), p.2))
      else if c.isDigit then (parseNat (c :: cs)).map (fun p => (Json.num (p.1 : Int), p.2))
      else none

/-- Parse one or more comma-separated array elements and the closing `]`. -/
def parseElems : Nat → List Char → Option (List Json × List Char)
  | 0, _ => none
  | f + 1, input =>
    match parseValue f input with
    | none => none
    | some (v, rest) =>
      match skipWs rest with
      | [] => none
      | c :: cs =>
        if c = ',' then (parseElems f cs).map (fun p => (v :: p.1, p.2))
        else if c = ']' then some ([v], cs)
        else none

/-- Parse one or more comma-separated object members and the closing `}`. -/
def parseFields : Nat → List Char → Option (List (String × Json) × List Char)
  | 0, _ => none
  | f + 1, input =>
    match skipWs input with
    | [] => none
    | c :: cs =>
      if c = '"' then
        match parseStringBody cs with
        | none => none
        | some (key, rest) =>
          match skipWs rest with
          | [] => none
          | d :: ds =>
            if d = ':' then
              match parseValue f ds with
              | none => none
              | some (v, rest3) =>
                match skipWs rest3 with
                | [] => none
                | e :: es =>
                  if e = ',' then (parseFields f es).map (fun p => ((⟨key⟩, v) :: p.1, p.2))
                  else if e = '}' then some ([(⟨key⟩, v)], es)
                  else none
            else none
      else none

end

/-- Interpret a parsed JSON value as a `Todo` record
(`{"id": ..., "text": ..., "completed": ...}`). -/
def jsonToTodo : Json → Option Todo
  | Json.obj [("id", Json.str i), ("text", Json.str tx), ("completed", Json.bool b)] =>
    some ⟨i, tx, b⟩
  | _ => none

/-- Interpret a list of parsed JSON values as `Todo` records. -/
def todosOfJsons : List Json → Option (List Todo)
  | [] => some []
  | j :: js =>
    match jsonToTodo j, todosOfJsons js with
    | some t, some ts => some (t :: ts)
    | _, _ => none

/-- Interpret a parsed JSON value as a `Todo` array. -/
def jsonToTodos : Json → Option (List Todo)
  | Json.arr es => todosOfJsons es
  | _ => none

/-- Deserialization of a stored blob: `JSON.parse` (failure = exception)
followed by reading the result as a `Todo[]`. -/
def deserializeTodos (s : String) : Option (List Todo) :=
  match parseValue (s.data.length + 1) s.data with
  | some (j, rest) => if skipWs rest = [] then jsonToTodos j else none
  | none => none

/-- Hexadecimal digit character (lowercase), as emitted by `JSON.stringify`. -/
def hexDigitChar (n : Nat) : Char :=
  Char.ofNat (if n < 10 then n + 48 else n + 87)

/-- JSON escaping of one character, exactly as `JSON.stringify` emits it:
`"` and `\` are escaped, the five short control escapes are used where they
exist, any other control character becomes `\u00xx`, and everything else is
emitted verbatim. -/
def escapeChar (c : Char) : List Char :=
  if c = '"' then ['\\', '"']
  else if c = '\\' then ['\\', '\\']
  else if c = '\x08' then ['\\', 'b']
  else if c = '\t' then ['\\', 't']
  else if c = '\n' then ['\\', 'n']
  else if c = '\x0c' then ['\\', 'f']
  else if c = '\r' then ['\\', 'r']
  else if c.toNat < 32 then
    '\\' :: 'u' :: '0' :: '0' :: hexDigitChar (c.toNat / 16) :: [hexDigitChar (c.toNat % 16)]
  else [c]

/-- JSON escaping of a character sequence. -/
def escapeList : List Char → List Char
  | [] => []
  | c :: cs => escapeChar c ++ escapeList cs

/-- A quoted JSON string, prepended to `rest`. -/
def quoteChars (s : String) (rest : List Char) : List Char :=
  '"' :: (escapeList s.data ++ '"' :: rest)

/-- The keyword `true` or `false`, prepended to `rest`. -/
def boolChars (b : Bool) (rest : List Char) : List Char :=
  if b then 't' :: 'r' :: 'u' :: 'e' :: rest else 'f' :: 'a' :: 'l' :: 's' :: 'e' :: rest

/-- The members of a serialized `Todo` object, prepended to `rest`
(insertion order `id`, `text`, `completed`, as in the object literal the
application constructs). -/
def todoFieldsChars (t : Todo) (rest : List Char) : List Char :=
  quoteChars "id" (':' :: quoteChars t.id (',' :: quoteChars "text" (':' ::
    quoteChars t.text (',' :: quoteChars "completed" (':' ::
      boolChars t.completed ('}' :: rest))))))

/-- A serialized `Todo` object, prepended to `rest`. -/
def todoChars (t : Todo) (rest : List Char) : List Char :=
  '{' :: todoFieldsChars t rest

/-- Comma-separated serialized `Todo` objects, prepended to `rest`. -/
def elemsChars : List Todo → List Char → List Char
  | [], rest => rest
  | [t], rest => todoChars t rest
  | t :: ts, rest => todoChars t (',' :: elemsChars ts rest)

/-- The serialized `Todo` array, prepended to `rest`. -/
def serializeChars : List Todo → List Char → List Char
  | [], rest => '[' :: ']' :: rest
  | ts, rest => '[' :: elemsChars ts (']' :: rest)

/-- The blob `JSON.stringify(todos)`: the exact character stream `JSON.stringify`
produces for an array of `{id, text, completed}` records. -/
def stringifyTodos (ts : List Todo) : String :=
  ⟨serializeChars ts []⟩

/-- The loader `loadTodos`: the stored blob is `none` when absent.  The guard
`if (data)` skips falsy values (`null` and `""`); `JSON.parse` failures are
swallowed by the surrounding `try`/`catch`, leaving the initial `[]`. -/
def loadTodos (stored : Option String) : List Todo :=
  match stored with
  | none => []
  | some s =>
    if s = "" then []
    else
      match deserializeTodos s with
      | some ts => ts
      | none => []

/-- The storage write `AsyncStorage.setItem`: a key-value store updated at one key. -/
def setItem (store : String → Option String) (key value : String) :
    String → Option String :=
  fun k => if k = key then some value else store k

/-- The persist effect
`AsyncStorage.setItem(STORAGE_KEY, JSON.stringify(todos))`. -/
def persistTodos (todos : List Todo) (store : String → Option String) :
    String → Option String :=
  setItem store STORAGE_KEY (stringifyTodos todos)

/-- One user-level store operation.  `create` and `edit` both go through
`handleSave`; `freshId` is the id `uuid()` returns during that call. -/
inductive Op where
  | create (freshId text : String)
  | edit (eid freshId text : String)
  | toggle (id : String)
  | delete (id : String)

/-- Apply one operation to the list, as the corresponding handler does. -/
def applyOp (l : List Todo) : Op → List Todo
  | Op.create fid s => handleSave none fid s l
  | Op.edit eid fid s => handleSave (some eid) fid s l
  | Op.toggle i => handleToggle i l
  | Op.delete i => handleDelete i l

/-- Run a sequence of operations from the initial empty list. -/
def runOps (ops : List Op) : List Todo :=
  ops.foldl applyOp []

/-- The store invariant: pairwise-distinct ids and nonempty texts. -/
def TodoInv (l : List Todo) : Prop :=
  (l.map Todo.id).Nodup ∧ ∀ t ∈ l, t.text ≠ ""
/-! Round-trip lemmas for the codec. -/

/-- The constructor `String.mk` is inverse to `String.data`. -/
theorem stringMk_data (s : String) : String.mk s.data = s := by
  cases s
  rfl

/-- The reader `hexVal` decodes the digit characters `hexDigitChar` emits. -/
theorem hexVal_hexDigitChar : ∀ n : Nat, n < 16 → hexVal (hexDigitChar n) = some n := by
  decide

/-- Parsing one escaped character undoes `escapeChar`. -/
theorem parseStringBody_escapeChar (c : Char) (rest : List Char) :
    parseStringBody (escapeChar c ++ rest) = (parseStringBody rest).map (consFst c) := by
  by_cases h1 : c = '"'
  · subst h1
    simp only [escapeChar]
    norm_num
    rw [parseStringBody.eq_def]
    simp
  by_cases h2 : c = '\\'
  · subst h2
    simp only [escapeChar]
    norm_num
    rw [parseStringBody.eq_def]
    simp
  by_cases h3 : c = '\x08'
  · subst h3
    simp only [escapeChar]
    norm_num
    rw [parseStringBody.eq_def]
    simp
  by_cases h4 : c = '\t'
  · subst h4
    simp only [escapeChar]
    norm_num
    rw [parseStringBody.eq_def]
    simp
  by_cases h5 : c = '\n'
  · subst h5
    simp only [escapeChar]
    norm_num
    rw [parseStringBody.eq_def]
    simp
  by_cases h6 : c = '\x0c'
  · subst h6
    simp only [escapeChar]
    norm_num
    rw [parseStringBody.eq_def]
    simp
  by_cases h7 : c = '\r'
  · subst h7
    simp only [escapeChar]
    norm_num
    rw [parseStringBody.eq_def]
    simp
  by_cases h8 : c.toNat < 32
  · have hdiv : c.toNat / 16 < 16 := by omega
    have hmod : c.toNat % 16 < 16 := Nat.mod_lt _ (by omega)
    have h0 : hexVal '0' = some 0 := by decide
    have harith : ((0 * 16 + 0) * 16 + c.toNat / 16) * 16 + c.toNat % 16 = c.toNat := by omega
    simp only [escapeChar, h1, h2, h3, h4, h5, h6, h7, if_neg, if_pos h8, ite_false]
    simp only [List.cons_append, List.nil_append, parseStringBody, h0,
      hexVal_hexDigitChar _ hdiv, hexVal_hexDigitChar _ hmod]
    rw [harith, Char.ofNat_toNat]
    simp
  · simp only [escapeChar, h1, h2, h3, h4, h5, h6, h7, h8, ite_false, if_neg,
      List.cons_append, List.nil_append]
    rw [parseStringBody.eq_def]
    simp [h1, h2, h8]

/-- Parsing an escaped character run stops exactly at the closing quote. -/
theorem parseStringBody_escapeList (cs : List Char) (rest : List Char) :
    parseStringBody (escapeList cs ++ '"' :: rest) = some (cs, rest) := by
  induction cs with
  | nil =>
    rw [escapeList, List.nil_append, parseStringBody.eq_def]
    simp
  | cons c cs ih =>
    rw [escapeList, List.append_assoc, parseStringBody_escapeChar, ih]
    rfl

/-- Parsing a quoted string undoes `quoteChars`. -/
theorem parseStringBody_quoteChars (s : String) (rest : List Char) :
    parseStringBody (escapeList s.data ++ '"' :: rest) = some (s.data, rest) :=
  parseStringBody_escapeList s.data rest

/-- Skipping whitespace leaves input starting with a non-whitespace character alone. -/
theorem skipWs_cons (c : Char) (cs : List Char) (h : isJsonWs c = false) :
    skipWs (c :: cs) = c :: cs := by
  simp [skipWs, h]

/-- The JSON value a serialized `Todo` denotes. -/
def todoJson (t : Todo) : Json :=
  Json.obj [("id", Json.str t.id), ("text", Json.str t.text), ("completed", Json.bool t.completed)]

/-- Leading-whitespace skipping is the identity on a serialized quoted string. -/
theorem skipWs_quoteChars (s : String) (rest : List Char) :
    skipWs (quoteChars s rest) = quoteChars s rest := by
  rw [quoteChars]
  exact skipWs_cons _ _ (by decide)

/-- Parsing a serialized quoted string yields the string value. -/
theorem parseValue_quoteChars (f : Nat) (s : String) (rest : List Char) :
    parseValue (f + 1) (quoteChars s rest) = some (Json.str s, rest) := by
  rw [parseValue, quoteChars, skipWs_cons _ _ (by decide)]
  simp [parseStringBody_quoteChars, stringMk_data]

/-- Parsing a serialized boolean yields the boolean value. -/
theorem parseValue_boolChars (f : Nat) (b : Bool) (rest : List Char) :
    parseValue (f + 1) (boolChars b rest) = some (Json.bool b, rest) := by
  cases b
  · show parseValue (f + 1) ('f' :: 'a' :: 'l' :: 's' :: 'e' :: rest) = some (Json.bool false, rest)
    rw [parseValue, skipWs_cons _ _ (by decide)]
    simp [dropLit]
  · show parseValue (f + 1) ('t' :: 'r' :: 'u' :: 'e' :: rest) = some (Json.bool true, rest)
    rw [parseValue, skipWs_cons _ _ (by decide)]
    simp [dropLit]

/-- Parsing the members of a serialized `Todo` object recovers its fields. -/
theorem parseFields_todo (t : Todo) (rest : List Char) (f : Nat) :
    parseFields (f + 4) (todoFieldsChars t rest) =
      some ([("id", Json.str t.id), ("text", Json.str t.text),
             ("completed", Json.bool t.completed)], rest) := by
  rw [todoFieldsChars]
  rw [show f + 4 = (f + 3) + 1 by omega, parseFields, skipWs_quoteChars, quoteChars]
  simp only [parseStringBody_escapeList, if_true]
  rw [skipWs_cons _ _ (by decide)]
  rw [show f + 3 = (f + 2) + 1 by omega]
  simp only [parseValue_quoteChars, if_true]
  rw [skipWs_cons _ _ (by decide)]
  simp only [if_true]
  rw [parseFields, skipWs_quoteChars, quoteChars]
  simp only [parseStringBody_escapeList, if_true]
  rw [skipWs_cons _ _ (by decide)]
  rw [show f + 2 = (f + 1) + 1 by omega]
  simp only [parseValue_quoteChars, if_true]
  rw [skipWs_cons _ _ (by decide)]
  simp only [if_true]
  rw [parseFields, skipWs_quoteChars, quoteChars]
  simp only [parseStringBody_escapeList, if_true]
  rw [skipWs_cons _ _ (by decide)]
  rw [show f + 1 = f + 0 + 1 by omega]
  simp only [parseValue_boolChars, if_true]
  rw [skipWs_cons _ _ (by decide)]
  simp only [if_true]
  simp [show String.mk ['i', 'd'] = "id" from rfl,
    show String.mk ['t', 'e', 'x', 't'] = "text" from rfl,
    show String.mk ['c', 'o', 'm', 'p', 'l', 'e', 't', 'e', 'd'] = "completed" from rfl]

/-- Parsing a serialized `Todo` object recovers the object value. -/
theorem parseValue_todo (t : Todo) (rest : List Char) (f : Nat) :
    parseValue (f + 5) (todoChars t rest) = some (todoJson t, rest) := by
  obtain ⟨tail, htail⟩ : ∃ tail, todoFieldsChars t rest = '"' :: tail :=
    ⟨_, by rw [todoFieldsChars, quoteChars]⟩
  rw [todoChars, show f + 5 = (f + 4) + 1 by omega, parseValue,
    skipWs_cons _ _ (by decide)]
  simp only [if_true]
  rw [htail, skipWs_cons _ _ (by decide)]
  simp only [if_true]
  rw [← htail, parseFields_todo]
  rfl

/-- Leading-whitespace skipping is the identity before a comma. -/
theorem skipWs_comma (cs : List Char) : skipWs (',' :: cs) = ',' :: cs :=
  skipWs_cons _ _ (by decide)

/-- Leading-whitespace skipping is the identity before a closing bracket. -/
theorem skipWs_rbracket (cs : List Char) : skipWs (']' :: cs) = ']' :: cs :=
  skipWs_cons _ _ (by decide)

/-- Parsing serialized array elements recovers the `Todo` objects. -/
theorem parseElems_todos :
    ∀ (ts : List Todo) (rest : List Char) (f : Nat), ts ≠ [] →
      parseElems (f + 6 * ts.length) (elemsChars ts (']' :: rest)) =
        some (ts.map todoJson, rest)
  | [], _, _, h => absurd rfl h
  | [t], rest, f, _ => by
    rw [elemsChars,
      show f + 6 * [t].length = (f + 5) + 1 by
        simp only [List.length_cons, List.length_nil]
        try omega,
      parseElems, parseValue_todo]
    simp [skipWs_rbracket]
  | t :: t2 :: ts, rest, f, _ => by
    rw [elemsChars,
      show f + 6 * (t :: t2 :: ts).length = (f + 6 * (t2 :: ts).length + 5) + 1 by
        simp only [List.length_cons]
        try omega,
      parseElems, parseValue_todo]
    simp only [skipWs_comma, if_true]
    rw [show f + 6 * (t2 :: ts).length + 5 = (f + 5) + 6 * (t2 :: ts).length by omega,
      parseElems_todos (t2 :: ts) rest (f + 5) (List.cons_ne_nil _ _)]
    simp
    exact List.cons_ne_nil _ _

/-- Every serialized element list starts with an opening brace. -/
theorem elemsChars_head (t : Todo) (ts : List Todo) (x : List Char) :
    ∃ tail, elemsChars (t :: ts) x = '{' :: tail := by
  cases ts with
  | nil => exact ⟨_, by rw [elemsChars, todoChars]⟩
  | cons t2 ts =>
    exact ⟨_, by rw [elemsChars, todoChars]; exact List.cons_ne_nil _ _⟩

/-- Parsing the serialized array recovers the `Todo` JSON values. -/
theorem parseValue_serializeChars (ts : List Todo) (rest : List Char) (f : Nat) :
    parseValue (f + 6 * ts.length + 1) (serializeChars ts rest) =
      some (Json.arr (ts.map todoJson), rest) := by
  cases ts with
  | nil =>
    rw [serializeChars, parseValue, skipWs_cons _ _ (by decide)]
    simp [skipWs_rbracket]
  | cons t ts =>
    obtain ⟨tail, htail⟩ := elemsChars_head t ts (']' :: rest)
    rw [serializeChars, parseValue, skipWs_cons _ _ (by decide)]
    simp only [if_true]
    rw [htail, skipWs_cons _ _ (by decide)]
    simp only [if_true]
    rw [← htail, parseElems_todos (t :: ts) rest f (List.cons_ne_nil _ _)]
    · rfl
    · exact List.cons_ne_nil _ _

/-- Decoding the JSON value of a serialized `Todo` yields the `Todo`. -/
theorem jsonToTodo_todoJson (t : Todo) : jsonToTodo (todoJson t) = some t := rfl

/-- Decoding a list of serialized `Todo` values yields the list back. -/
theorem todosOfJsons_map (ts : List Todo) :
    todosOfJsons (ts.map todoJson) = some ts := by
  induction ts with
  | nil => rfl
  | cons t ts ih => rw [List.map_cons, todosOfJsons, jsonToTodo_todoJson, ih]

/-- The serialized form of a `Todo` is at least six characters longer than
what follows it. -/
theorem todoChars_length (t : Todo) (rest : List Char) :
    rest.length + 6 ≤ (todoChars t rest).length := by
  rw [todoChars, todoFieldsChars]
  simp only [quoteChars, boolChars, List.length_cons, List.length_append]
  cases t.completed <;> simp <;> omega

/-- Each serialized element contributes at least six characters. -/
theorem elemsChars_length :
    ∀ (ts : List Todo) (rest : List Char),
      rest.length + 6 * ts.length ≤ (elemsChars ts rest).length
  | [], rest => by simp [elemsChars]
  | [t], rest => by
    have := todoChars_length t rest
    rw [elemsChars]
    simp only [List.length_cons, List.length_nil]
    omega
  | t :: t2 :: ts, rest => by
    have h1 := elemsChars_length (t2 :: ts) rest
    have h2 := todoChars_length t (',' :: elemsChars (t2 :: ts) rest)
    rw [elemsChars]
    · simp only [List.length_cons] at h1 h2 ⊢
      omega
    · exact List.cons_ne_nil _ _

/-- The fuel `deserializeTodos` supplies is enough for the serialized list. -/
theorem serializeChars_length (ts : List Todo) :
    6 * ts.length + 1 ≤ (serializeChars ts []).length + 1 := by
  cases ts with
  | nil => simp [serializeChars]
  | cons t ts =>
    have := elemsChars_length (t :: ts) [']']
    rw [serializeChars]
    · simp only [List.length_cons, List.length_nil] at this ⊢
      omega
    · exact List.cons_ne_nil _ _

/-- Destructing `String.mk` gives back the underlying list. -/
theorem data_stringMk (l : List Char) : (String.mk l).data = l := rfl

/-- Codec round trip: deserializing the serialized list restores it. -/
theorem deserialize_stringify (ts : List Todo) :
    deserializeTodos (stringifyTodos ts) = some ts := by
  have hlen := serializeChars_length ts
  rw [stringifyTodos, deserializeTodos]
  simp only [data_stringMk]
  rw [show (serializeChars ts []).length + 1 =
      ((serializeChars ts []).length - 6 * ts.length) + 6 * ts.length + 1 by omega,
    parseValue_serializeChars ts [] _]
  simp [skipWs, jsonToTodos, todosOfJsons_map]

/-! Helper lemmas about the handlers. -/

/-- Editing with an id nobody carries maps every element to itself. -/
theorem edit_map_eq_self (eid v : String) (l : List Todo)
    (h : ∀ t ∈ l, t.id ≠ eid) :
    (l.map fun t => if t.id = eid then { t with text := v } else t) = l := by
  induction l with
  | nil => rfl
  | cons t l ih =>
    rw [List.map_cons, if_neg (h t (by simp)), ih (fun u hu => h u (by simp [hu]))]

/-- Toggling an id nobody carries maps every element to itself. -/
theorem toggle_map_eq_self (i : String) (l : List Todo)
    (h : ∀ t ∈ l, t.id ≠ i) :
    (l.map fun t => if t.id = i then { t with completed := !t.completed } else t) = l := by
  induction l with
  | nil => rfl
  | cons t l ih =>
    rw [List.map_cons, if_neg (h t (by simp)), ih (fun u hu => h u (by simp [hu]))]

/-- Toggling the same id twice restores the list. -/
theorem toggle_toggle (i : String) (l : List Todo) :
    handleToggle i (handleToggle i l) = l := by
  induction l with
  | nil => rfl
  | cons t l ih =>
    obtain ⟨tid, ttext, tc⟩ := t
    simp only [handleToggle, List.map_cons] at ih ⊢
    by_cases h : tid = i <;> simp [h, ih]

/-- In a list with pairwise-distinct ids, at most one element matches an id. -/
theorem filter_id_length_le_one (l : List Todo) (i : String)
    (h : (l.map Todo.id).Nodup) :
    (l.filter fun t => t.id == i).length ≤ 1 := by
  induction l with
  | nil => simp
  | cons t l ih =>
    rw [List.map_cons, List.nodup_cons] at h
    by_cases ht : t.id = i
    · have hnone : ∀ u ∈ l, ¬(u.id == i) := by
        intro u hu
        simp only [beq_iff_eq]
        intro hui
        exact h.1 (by rw [ht, ← hui]; exact List.mem_map_of_mem _ hu)
      rw [List.filter_cons]
      have : l.filter (fun t => t.id == i) = [] := List.filter_eq_nil_iff.mpr hnone
      simp [this, ht]
    · simp only [List.filter_cons, beq_iff_eq, ht]
      simpa using ih h.2

/-! The claims. -/

/-- C1: `loadTodos` yields the empty list when the blob is absent, falls
back to the empty list when deserialization fails, and yields exactly the
deserialized list when it succeeds. -/
theorem loadTodos_spec :
    loadTodos none = [] ∧
    (∀ s : String, deserializeTodos s = none → loadTodos (some s) = []) ∧
    (∀ (s : String) (ts : List Todo), deserializeTodos s = some ts →
      loadTodos (some s) = ts) := by
  refine ⟨rfl, ?_, ?_⟩
  · intro s h
    by_cases hs : s = ""
    · subst hs; rfl
    · simp [loadTodos, hs, h]
  · intro s ts h
    by_cases hs : s = ""
    · subst hs
      have hnone : deserializeTodos "" = none := by decide
      rw [hnone] at h
      exact Option.noConfusion h
    · simp [loadTodos, hs, h]

/-- Witness for C1 at a malformed blob and at a well-formed one. -/
theorem loadTodos_spec_witness :
    loadTodos (some "\x7b") = [] ∧
    loadTodos (some "[\x7b\"id\":\"a\",\"text\":\"x\",\"completed\":false\x7d]") =
      [⟨"a", "x", false⟩] :=
  ⟨loadTodos_spec.2.1 "\x7b" (by decide), loadTodos_spec.2.2 _ _ (by decide)⟩

/-- C2: a create-mode save with nonempty trimmed input prepends the
freshly built task (trimmed text, not completed) to the unchanged list. -/
theorem handleSave_create_spec (todos : List Todo) (fid s : String)
    (h : jsTrim s ≠ "") :
    handleSave none fid s todos =
      { id := fid, text := jsTrim s, completed := false } :: todos := by
  simp [handleSave, h]

/-- Witness for C2 at a concrete input. -/
theorem handleSave_create_spec_witness :
    handleSave none "id1" " Buy milk " [⟨"id0", "Walk dog", true⟩] =
      [⟨"id1", "Buy milk", false⟩, ⟨"id0", "Walk dog", true⟩] :=
  (handleSave_create_spec [⟨"id0", "Walk dog", true⟩] "id1" " Buy milk "
    (by decide)).trans (by decide)

/-- C3, counterexample: editing with the id `""` is *not* a no-op on a
list that contains no task with that id — the truthiness test
`if (editingId)` sends `""` into the create branch, so a new task is
prepended instead. -/
theorem handleSave_edit_empty_id_counterexample :
    handleSave (some "") "f1" "task" [] ≠ [] := by decide

/-- C3 (amended): for a *nonempty* id, an edit-mode save with nonempty
trimmed text rewrites exactly the matching task's text in place and leaves
everything else unchanged, and is a no-op when no task matches. -/
theorem handleSave_edit_spec (l : List Todo) (eid fid s : String)
    (hnd : (l.map Todo.id).Nodup) (hs : jsTrim s ≠ "") (heid : eid ≠ "") :
    ((∀ t ∈ l, t.id ≠ eid) → handleSave (some eid) fid s l = l) ∧
    (∀ (l₁ l₂ : List Todo) (t : Todo), l = l₁ ++ t :: l₂ → t.id = eid →
      handleSave (some eid) fid s l = l₁ ++ { t with text := jsTrim s } :: l₂) := by
  constructor
  · intro habs
    simp only [handleSave, if_neg hs, if_neg heid]
    exact edit_map_eq_self eid _ l habs
  · intro l₁ l₂ t hdec hid
    subst hdec
    rw [List.map_append, List.map_cons] at hnd
    have hsplit := List.nodup_append.mp hnd
    have h1 : ∀ u ∈ l₁, u.id ≠ eid := by
      intro u hu hui
      refine hsplit.2.2 (List.mem_map_of_mem _ hu) ?_
      rw [hui, ← hid]
      exact List.mem_cons_self _ _
    have h2 : ∀ u ∈ l₂, u.id ≠ eid := by
      intro u hu hui
      have := (List.nodup_cons.mp hsplit.2.1).1
      exact this (by rw [hid, ← hui]; exact List.mem_map_of_mem _ hu)
    simp only [handleSave, if_neg hs, if_neg heid]
    rw [List.map_append, List.map_cons, if_pos hid,
      edit_map_eq_self _ _ _ h1, edit_map_eq_self _ _ _ h2]

/-- C4: toggling a present task's id twice restores the list exactly,
and toggling an absent id is a no-op. -/
theorem handleToggle_spec (l : List Todo) :
    (∀ t : Todo, (l.map Todo.id).Nodup → t ∈ l →
      handleToggle t.id (handleToggle t.id l) = l) ∧
    (∀ i : String, (∀ t ∈ l, t.id ≠ i) → handleToggle i l = l) := by
  constructor
  · intro t _ _
    exact toggle_toggle t.id l
  · intro i h
    exact toggle_map_eq_self i l h

/-- Witness for C4: a double toggle on a present id and a toggle of an
absent id, on concrete lists. -/
theorem handleToggle_spec_witness :
    handleToggle "a" (handleToggle "a" [⟨"a", "x", false⟩, ⟨"b", "y", true⟩]) =
      [⟨"a", "x", false⟩, ⟨"b", "y", true⟩] ∧
    handleToggle "zz" [⟨"a", "x", false⟩] = [⟨"a", "x", false⟩] :=
  ⟨(handleToggle_spec [⟨"a", "x", false⟩, ⟨"b", "y", true⟩]).1 ⟨"a", "x", false⟩
    (by decide) (by decide),
   (handleToggle_spec [⟨"a", "x", false⟩]).2 "zz" (by decide)⟩

/-- Witness for C3 (amended): a concrete in-place edit and a concrete
no-op on an absent id. -/
theorem handleSave_edit_spec_witness :
    handleSave (some "a") "f" " new " [⟨"b", "y", false⟩, ⟨"a", "x", true⟩] =
      [⟨"b", "y", false⟩, ⟨"a", "new", true⟩] ∧
    handleSave (some "zz") "f" "new" [⟨"b", "y", false⟩] = [⟨"b", "y", false⟩] :=
  ⟨((handleSave_edit_spec [⟨"b", "y", false⟩, ⟨"a", "x", true⟩] "a" "f" " new "
      (by decide) (by decide) (by decide)).2
      [⟨"b", "y", false⟩] [] ⟨"a", "x", true⟩ rfl rfl).trans (by decide),
   (handleSave_edit_spec [⟨"b", "y", false⟩] "zz" "f" "new"
      (by decide) (by decide) (by decide)).1 (by decide)⟩

/-- C5: deleting a present id removes exactly the matching task and
keeps the rest in order; deleting an absent id leaves the list identical. -/
theorem handleDelete_spec (l : List Todo) (i : String)
    (hnd : (l.map Todo.id).Nodup) :
    (∀ (l₁ l₂ : List Todo) (t : Todo), l = l₁ ++ t :: l₂ → t.id = i →
      handleDelete i l = l₁ ++ l₂) ∧
    ((∀ t ∈ l, t.id ≠ i) → handleDelete i l = l) := by
  constructor
  · intro l₁ l₂ t hdec hid
    subst hdec
    rw [List.map_append, List.map_cons] at hnd
    have hsplit := List.nodup_append.mp hnd
    have h1 : ∀ u ∈ l₁, u.id ≠ i := by
      intro u hu hui
      refine hsplit.2.2 (List.mem_map_of_mem _ hu) ?_
      rw [hui, ← hid]
      exact List.mem_cons_self _ _
    have h2 : ∀ u ∈ l₂, u.id ≠ i := by
      intro u hu hui
      have := (List.nodup_cons.mp hsplit.2.1).1
      exact this (by rw [hid, ← hui]; exact List.mem_map_of_mem _ hu)
    rw [handleDelete, List.filter_append, List.filter_cons]
    have hts : (t.id != i) = false := by simp [hid]
    rw [hts]
    rw [List.filter_eq_self.mpr (fun u hu => by simpa using h1 u hu),
      List.filter_eq_self.mpr (fun u hu => by simpa using h2 u hu)]
    simp
  · intro h
    rw [handleDelete]
    exact List.filter_eq_self.mpr (fun u hu => by simpa using h u hu)

/-- Witness for C5: a concrete single deletion and a concrete no-op. -/
theorem handleDelete_spec_witness :
    handleDelete "a" [⟨"b", "y", false⟩, ⟨"a", "x", false⟩, ⟨"c", "z", true⟩] =
      [⟨"b", "y", false⟩, ⟨"c", "z", true⟩] ∧
    handleDelete "zz" [⟨"b", "y", false⟩] = [⟨"b", "y", false⟩] :=
  ⟨(handleDelete_spec [⟨"b", "y", false⟩, ⟨"a", "x", false⟩, ⟨"c", "z", true⟩] "a"
      (by decide)).1 [⟨"b", "y", false⟩] [⟨"c", "z", true⟩] ⟨"a", "x", false⟩ rfl rfl,
   (handleDelete_spec [⟨"b", "y", false⟩] "zz" (by decide)).2 (by decide)⟩

/-- C6: a save with blank (empty-trim) input is a no-op in both the
create mode and the edit mode. -/
theorem handleSave_blank_input_spec (editingId : Option String) (fid s : String)
    (l : List Todo) (h : jsTrim s = "") :
    handleSave editingId fid s l = l := by
  simp [handleSave, h]

/-- Witness for C6: blank input in create mode and in edit mode. -/
theorem handleSave_blank_input_spec_witness :
    handleSave none "f" "   " [⟨"a", "x", false⟩] = [⟨"a", "x", false⟩] ∧
    handleSave (some "a") "f" " " [⟨"a", "x", false⟩] = [⟨"a", "x", false⟩] :=
  ⟨handleSave_blank_input_spec none "f" "   " _ (by decide),
   handleSave_blank_input_spec (some "a") "f" " " _ (by decide)⟩

/-- C7: for every list reachable from the empty list by store
operations, deserializing its serialization restores it exactly. -/
theorem serialize_roundtrip_reachable (l : List Todo)
    (h : ∃ ops : List Op, runOps ops = l) :
    deserializeTodos (stringifyTodos l) = some l :=
  deserialize_stringify l

/-- Witness for C7 at a list built by one create operation. -/
theorem serialize_roundtrip_reachable_witness :
    deserializeTodos (stringifyTodos [⟨"a1", "Buy milk", false⟩]) =
      some [⟨"a1", "Buy milk", false⟩] :=
  serialize_roundtrip_reachable _ ⟨[Op.create "a1" "Buy milk"], by decide⟩

/-- C8: persisting writes exactly the serialization of the current list
under the fixed key, overwriting whatever was there, and persisting twice
with no intervening mutation writes the very same storage state. -/
theorem persistTodos_spec (ts : List Todo) (store : String → Option String) :
    persistTodos ts store STORAGE_KEY = some (stringifyTodos ts) ∧
    persistTodos ts (persistTodos ts store) = persistTodos ts store := by
  refine ⟨by simp [persistTodos, setItem], ?_⟩
  funext k
  by_cases h : k = STORAGE_KEY <;> simp [persistTodos, setItem, h]

/-- Mapping an id-preserving function leaves the id sequence unchanged. -/
theorem map_preserving_ids (f : Todo → Todo) (hf : ∀ t, (f t).id = t.id)
    (l : List Todo) : (l.map f).map Todo.id = l.map Todo.id := by
  rw [List.map_map]
  exact List.map_congr_left (fun u _ => hf u)

/-- C9: every store operation preserves distinct ids and nonempty texts
(saves assuming a fresh generated id and nonempty trimmed input), and under
distinct ids an id addresses at most one task. -/
theorem store_ops_preserve_invariants (l : List Todo) (hInv : TodoInv l) :
    (∀ (editingId : Option String) (fid s : String), jsTrim s ≠ "" →
      fid ∉ l.map Todo.id → TodoInv (handleSave editingId fid s l)) ∧
    (∀ i : String, TodoInv (handleToggle i l)) ∧
    (∀ i : String, TodoInv (handleDelete i l)) ∧
    (∀ i : String, (l.filter fun t => t.id == i).length ≤ 1) := by
  refine ⟨?_, ?_, ?_, fun i => filter_id_length_le_one l i hInv.1⟩
  · intro editingId fid s hs hfid
    have hcreate : TodoInv ({ id := fid, text := jsTrim s, completed := false } :: l) := by
      refine ⟨List.nodup_cons.mpr ⟨hfid, hInv.1⟩, ?_⟩
      intro u hu
      rcases List.mem_cons.mp hu with h | h
      · subst h; exact hs
      · exact hInv.2 u h
    have hedit : ∀ eid : String, TodoInv
        (l.map fun t => if t.id = eid then { t with text := jsTrim s } else t) := by
      intro eid
      constructor
      · rw [map_preserving_ids _ (fun t => by by_cases h : t.id = eid <;> simp [h])]
        exact hInv.1
      · intro u hu
        obtain ⟨v, hv, rfl⟩ := List.mem_map.mp hu
        by_cases h : v.id = eid
        · simp [h, hs]
        · simp only [if_neg h]
          exact hInv.2 v hv
    cases editingId with
    | none => simpa [handleSave, hs] using hcreate
    | some eid =>
      by_cases he : eid = ""
      · subst he
        simpa [handleSave, hs] using hcreate
      · simpa [handleSave, hs, he] using hedit eid
  · intro i
    constructor
    · rw [handleToggle,
        map_preserving_ids _ (fun t => by by_cases h : t.id = i <;> simp [h])]
      exact hInv.1
    · intro u hu
      rw [handleToggle] at hu
      obtain ⟨v, hv, rfl⟩ := List.mem_map.mp hu
      by_cases h : v.id = i <;> simp only [h, if_pos, if_neg, ite_true, ite_false] <;>
        exact hInv.2 v hv
  · intro i
    constructor
    · exact ((List.filter_sublist l).map Todo.id).nodup hInv.1
    · intro u hu
      exact hInv.2 u (List.mem_of_mem_filter hu)

/-- Witness for C9: the invariant after a concrete create and a concrete
toggle. -/
theorem store_ops_preserve_invariants_witness :
    TodoInv (handleSave none "b" "task" [⟨"a", "x", false⟩]) ∧
    TodoInv (handleToggle "a" [⟨"a", "x", false⟩]) :=
  ⟨(store_ops_preserve_invariants [⟨"a", "x", false⟩] ⟨by decide, by decide⟩).1
      none "b" "task" (by decide) (by decide),
   (store_ops_preserve_invariants [⟨"a", "x", false⟩] ⟨by decide, by decide⟩).2.1 "a"⟩

/-- C10: on a list with a duplicated id — accepted unvalidated from a
deserialized blob — delete removes *every* match, and edit and toggle
modify *every* match. -/
theorem duplicate_ids_ops_affect_all :
    deserializeTodos
        "[\x7b\"id\":\"a\",\"text\":\"x\",\"completed\":false\x7d,\x7b\"id\":\"a\",\"text\":\"y\",\"completed\":false\x7d]" =
      some [⟨"a", "x", false⟩, ⟨"a", "y", false⟩] ∧
    handleDelete "a" [⟨"a", "x", false⟩, ⟨"a", "y", false⟩] = [] ∧
    handleToggle "a" [⟨"a", "x", false⟩, ⟨"a", "y", false⟩] =
      [⟨"a", "x", true⟩, ⟨"a", "y", true⟩] ∧
    handleSave (some "a") "f" "z" [⟨"a", "x", false⟩, ⟨"a", "y", false⟩] =
      [⟨"a", "z", false⟩, ⟨"a", "z", false⟩] :=
  ⟨by decide, by decide, by decide, by decide⟩
